import Mathlib

/-!
Verification of the annotation-application engine of `nolint`.

The definitions below are a shallow embedding of the C++ core
(`src/core/annotated_file.cpp`, `src/core/functional_core.cpp`,
`src/core/warning.cpp`, `src/ui/ui_model_persistence.cpp`,
`include/nolint/core/functional_core.hpp`): strings are Lean `String`s,
`std::vector` is `List`, `std::optional` is `Option`, `size_t` arithmetic
that can wrap is modelled modulo `2^64`, and the in-place mutation of
`AnnotatedFile` is modelled by returning the updated value.
-/

namespace Nolint

/-- NOLINT suppression styles (`enum class NolintStyle` in
`include/nolint/core/warning.hpp`). -/
inductive NolintStyle where
  | NONE
  | NOLINT_SPECIFIC
  | NOLINTNEXTLINE
  | NOLINT_BLOCK
deriving DecidableEq, Repr

/-- A clang-tidy style warning record (`struct Warning` in
`include/nolint/core/warning.hpp`). `size_t` fields become `Nat`. -/
structure Warning where
  file_path : String
  line_number : Nat
  column_number : Nat
  warning_type : String
  message : String
  function_lines : Option Nat
deriving DecidableEq, Repr, Inhabited

/-- One source line plus its decorations (`struct AnnotatedLine`). -/
structure AnnotatedLine where
  text : String
  before_comments : List String
  inline_comment : Option String
deriving DecidableEq, Repr, Inhabited

/-- A block suppression range over original line indices
(`struct BlockSuppression`). -/
structure BlockSuppression where
  start_line : Nat
  end_line : Nat
  warning_type : String
deriving DecidableEq, Repr, Inhabited

/-- The annotated document (`struct AnnotatedFile`). -/
structure AnnotatedFile where
  lines : List AnnotatedLine
  blocks : List BlockSuppression
deriving DecidableEq, Repr, Inhabited

/-- The characters `find_first_not_of(" \t")` skips over. -/
def isIndentChar (c : Char) : Bool :=
  c == ' ' || c == '\t'

/-- `extract_indentation` (`src/core/annotated_file.cpp`): the leading run of
spaces/tabs, or `""` when the whole line is whitespace
(`find_first_not_of` returning `npos`). -/
def extract_indentation (line : String) : String :=
  let ind := line.toList.takeWhile isIndentChar
  if ind.length = line.toList.length then ""
  else String.mk ind

/-- `create_annotated_file` (`src/core/annotated_file.cpp`): wrap every raw
line with empty decorations; no blocks. -/
def create_annotated_file (lines : List String) : AnnotatedFile :=
  { lines := lines.map (fun line =>
      { text := line, before_comments := [], inline_comment := none }),
    blocks := [] }

/-- The lines pushed to the output for original line index `i` by one
iteration of the loop in `render_annotated_file`: block-begin markers for
blocks starting at `i`, then the before-comments, then the original text with
the optional inline comment, then block-end markers for blocks ending at `i`. -/
def render_one_line (file : AnnotatedFile) (i : Nat) (L : AnnotatedLine) : List String :=
  ((file.blocks.filter (fun b => b.start_line == i)).map
      (fun b => extract_indentation L.text ++ "// NOLINTBEGIN(" ++ b.warning_type ++ ")"))
    ++ L.before_comments
    ++ [(match L.inline_comment with
        | some c => L.text ++ "  " ++ c
        | none => L.text)]
    ++ ((file.blocks.filter (fun b => b.end_line == i)).map
      (fun b => extract_indentation L.text ++ "// NOLINTEND(" ++ b.warning_type ++ ")"))

/-- `render_annotated_file` (`src/core/annotated_file.cpp`): the loop over
`i = 0 .. lines.size()-1` appending to `output`. -/
def render_annotated_file (file : AnnotatedFile) : List String :=
  file.lines.enum.foldl
    (fun output p => output ++ render_one_line file p.1 p.2) []

/-- Renderer ordering as the specification words it: for each original line
index `i` in ascending order emit, in this exact order, one block-begin marker
line for each block suppression with `start_line == i` (indented as line `i`),
then every before-comment of line `i` in list order, then line `i`'s original
text with `"  " + inline_comment` appended when the inline comment is set,
then one block-end marker line for each block suppression with
`end_line == i`. -/
def render_spec (file : AnnotatedFile) : List String :=
  (List.range file.lines.length).flatMap (fun i =>
    let L := file.lines.getD i default
    ((file.blocks.filter (fun b => b.start_line == i)).map
        (fun b => extract_indentation L.text ++ "// NOLINTBEGIN(" ++ b.warning_type ++ ")"))
      ++ L.before_comments
      ++ [(match L.inline_comment with
          | some c => L.text ++ "  " ++ c
          | none => L.text)]
      ++ ((file.blocks.filter (fun b => b.end_line == i)).map
        (fun b => extract_indentation L.text ++ "// NOLINTEND(" ++ b.warning_type ++ ")")))

/-- `2^64`: the modulus of `size_t` arithmetic on the target platform. -/
def U64 : Nat := 18446744073709551616

/-- `a - 1` computed in `size_t`: wraps around at zero. -/
def wsub1 (a : Nat) : Nat := (a % U64 + (U64 - 1)) % U64

/-- `warning_key` (`src/core/warning.cpp`): `"path:line:column"`. -/
def warning_key (warning : Warning) : String :=
  warning.file_path ++ ":" ++ toString warning.line_number ++ ":"
    ++ toString warning.column_number

/-- `is_style_available` (`src/core/warning.cpp`). -/
def is_style_available (style : NolintStyle) (warning : Warning) : Bool :=
  match style with
  | NolintStyle.NONE => true
  | NolintStyle.NOLINT_SPECIFIC => true
  | NolintStyle.NOLINTNEXTLINE => true
  | NolintStyle.NOLINT_BLOCK => warning.function_lines.isSome

/-- `cycle_style_up` (`src/core/warning.cpp`). -/
def cycle_style_up (current : NolintStyle) (warning : Warning) : NolintStyle :=
  match current with
  | NolintStyle.NONE => NolintStyle.NOLINT_SPECIFIC
  | NolintStyle.NOLINT_SPECIFIC => NolintStyle.NOLINTNEXTLINE
  | NolintStyle.NOLINTNEXTLINE =>
      if is_style_available NolintStyle.NOLINT_BLOCK warning then
        NolintStyle.NOLINT_BLOCK
      else NolintStyle.NONE
  | NolintStyle.NOLINT_BLOCK => NolintStyle.NONE

/-- `cycle_style_down` (`src/core/warning.cpp`). -/
def cycle_style_down (current : NolintStyle) (warning : Warning) : NolintStyle :=
  match current with
  | NolintStyle.NONE =>
      if is_style_available NolintStyle.NOLINT_BLOCK warning then
        NolintStyle.NOLINT_BLOCK
      else NolintStyle.NOLINTNEXTLINE
  | NolintStyle.NOLINT_SPECIFIC => NolintStyle.NONE
  | NolintStyle.NOLINTNEXTLINE => NolintStyle.NOLINT_SPECIFIC
  | NolintStyle.NOLINT_BLOCK => NolintStyle.NOLINTNEXTLINE

/-- `find_function_boundaries` (`include/nolint/core/functional_core.hpp`):
the early return computes `warning.line_number - 1` in `size_t` (wrapping at
zero); the main path clamps both endpoints with
`std::min(_, range_size > 0 ? range_size - 1 : 0)`. -/
def find_function_boundaries (line_range : List String) (warning : Warning) :
    Nat × Nat :=
  if warning.function_lines.isNone || warning.line_number == 0 then
    (wsub1 warning.line_number, wsub1 warning.line_number)
  else
    let start_line := warning.line_number - 1
    let end_line := wsub1 (start_line + warning.function_lines.getD 0)
    let range_size := line_range.length
    (min start_line (if 0 < range_size then range_size - 1 else 0),
     min end_line (if 0 < range_size then range_size - 1 else 0))

/-- Replace the element at index `i` (no-op past the end), as
`file.lines[line_index]` mutation does. -/
def modifyAt (xs : List AnnotatedLine) (i : Nat) (f : AnnotatedLine → AnnotatedLine) :
    List AnnotatedLine :=
  match xs, i with
  | [], _ => []
  | x :: rest, 0 => f x :: rest
  | x :: rest, Nat.succ n => x :: modifyAt rest n f

/-- `apply_decision` (`src/core/functional_core.cpp`), with the in-place
mutation of `file` modelled by returning the updated document. -/
def apply_decision (file : AnnotatedFile) (warning : Warning)
    (style : NolintStyle) : AnnotatedFile :=
  if warning.line_number = 0 ∨ file.lines.length < warning.line_number then file
  else
    let line_index := warning.line_number - 1
    match style with
    | NolintStyle.NONE => file
    | NolintStyle.NOLINT_SPECIFIC =>
        { file with lines := modifyAt file.lines line_index (fun L =>
            { L with inline_comment := some ("// NOLINT(" ++ warning.warning_type ++ ")") }) }
    | NolintStyle.NOLINTNEXTLINE =>
        { file with lines := modifyAt file.lines line_index (fun L =>
            { L with before_comments := L.before_comments
                ++ [extract_indentation L.text ++ "// NOLINTNEXTLINE(" ++ warning.warning_type ++ ")"] }) }
    | NolintStyle.NOLINT_BLOCK =>
        if warning.function_lines.isSome then
          let r := find_function_boundaries (file.lines.map AnnotatedLine.text) warning
          { file with blocks := file.blocks
              ++ [{ start_line := r.1, end_line := r.2,
                    warning_type := warning.warning_type }] }
        else file

/-- The whitespace class of `std::istringstream >>` (`isspace` in the C
locale). -/
def isCSpace (c : Char) : Bool :=
  c == ' ' || c == '\t' || c == '\n' || c == '\x0b' || c == '\x0c' || c == '\r'

/-- The character set of `trim`'s `find_first_not_of(" \t\r\n")`. -/
def isTrimChar (c : Char) : Bool :=
  c == ' ' || c == '\t' || c == '\r' || c == '\n'

/-- `::tolower` in the C locale on ASCII. -/
def asciiToLower (c : Char) : Char :=
  if 'A' ≤ c ∧ c ≤ 'Z' then Char.ofNat (c.toNat + 32) else c

/-- `to_lowercase` (`src/core/functional_core.cpp`). -/
def to_lowercase (text : String) : String :=
  String.mk (text.toList.map asciiToLower)

/-- `trim` (`src/core/functional_core.cpp`): strip leading and trailing
`" \t\r\n"`; all-whitespace input yields `""`. -/
def trim (text : String) : String :=
  if text.toList.all isTrimChar then ""
  else String.mk
    (((text.toList.dropWhile isTrimChar).reverse.dropWhile isTrimChar).reverse)

/-- Token accumulation of `split_by_whitespace`: the stream scans character
by character, skipping whitespace between tokens and gathering token
characters (held reversed in `cur`). -/
def splitWSAux (cur : List Char) (cs : List Char) : List (List Char) :=
  match cs with
  | [] => if cur.isEmpty then [] else [cur.reverse]
  | c :: rest =>
    if isCSpace c then
      if cur.isEmpty then splitWSAux [] rest
      else cur.reverse :: splitWSAux [] rest
    else splitWSAux (c :: cur) rest

/-- Token split of `split_by_whitespace`: `iss >> token` in a loop yields the
maximal runs of non-whitespace characters. -/
def splitWS (cs : List Char) : List (List Char) := splitWSAux [] cs

/-- `split_by_whitespace` (`src/core/functional_core.cpp`). -/
def split_by_whitespace (text : String) : List String :=
  (splitWS text.toList).map String.mk

/-- Does `needle` occur as a contiguous substring of `hay`
(`std::string::find(term) != npos`)? -/
def strContainsSub (hay needle : List Char) : Bool :=
  match hay with
  | [] => needle.isEmpty
  | _ :: rest => needle.isPrefixOf hay || strContainsSub rest needle

/-- The per-term field check of `filter_warnings`: the term occurs in the
lowercased file path, rule id or message, or in the decimal line number. -/
def warning_matches (warning : Warning) (term : String) : Bool :=
  strContainsSub (to_lowercase warning.file_path).toList term.toList
  || strContainsSub (to_lowercase warning.warning_type).toList term.toList
  || strContainsSub (to_lowercase warning.message).toList term.toList
  || strContainsSub (toString warning.line_number).toList term.toList

/-- `filter_warnings` (`src/core/functional_core.cpp`): returns the indices of
the matching warnings, in order. -/
def filter_warnings (warnings : List Warning) (filter_terms : String) : List Nat :=
  if filter_terms = "" then List.range warnings.length
  else
    let terms := split_by_whitespace (to_lowercase (trim filter_terms))
    (List.range warnings.length).filter (fun i =>
      terms.all (fun term => warning_matches (warnings.getD i default) term))

/-- Per-rule-id statistics record (`struct WarningTypeStats` in
`include/nolint/ui/ui_model.hpp`). -/
structure WarningTypeStats where
  warning_type : String
  total_count : Nat
  addressed_count : Nat
  visited_count : Nat
deriving DecidableEq, Repr, Inhabited

/-- The value-initialized record `stats_map[key]` starts from. -/
def WarningTypeStats.init : WarningTypeStats :=
  { warning_type := "", total_count := 0, addressed_count := 0, visited_count := 0 }

/-- `WarningTypeStats::addressed_percentage`
(`include/nolint/ui/ui_model.hpp`). -/
def WarningTypeStats.addressed_percentage (s : WarningTypeStats) : Nat :=
  if 0 < s.total_count then s.addressed_count * 100 / s.total_count else 0

/-- The decision map `unordered_map<string, NolintStyle>`, modelled as an
association list with distinct keys; `lookup` is `find`. -/
def Decisions : Type := List (String × NolintStyle)

/-- Replace the value stored under `k`, or append a fresh entry — the effect
of `stats_map[key] = value` on the association-list model of the hash map. -/
def stats_upsert (m : List (String × WarningTypeStats)) (k : String)
    (v : WarningTypeStats) : List (String × WarningTypeStats) :=
  match m with
  | [] => [(k, v)]
  | (k', v') :: rest =>
    if k' = k then (k, v) :: rest else (k', v') :: stats_upsert rest k v

/-- One iteration of the loop in `calculate_statistics`
(`src/core/functional_core.cpp`): fetch (or default-create) the record for the
warning's rule id, set its name, bump `total_count`, bump `addressed_count`
when the decision map holds a non-`NONE` style for the warning's key, bump
`visited_count` when the key is in the visited set, and store it back. -/
def stats_step (decisions : List (String × NolintStyle)) (visited : List String)
    (m : List (String × WarningTypeStats)) (warning : Warning) :
    List (String × WarningTypeStats) :=
  let prev := match m.lookup warning.warning_type with
    | some s => s
    | none => WarningTypeStats.init
  let s1 := { prev with warning_type := warning.warning_type,
                        total_count := prev.total_count + 1 }
  let key := warning_key warning
  let s2 := match decisions.lookup key with
    | some st =>
        if st ≠ NolintStyle.NONE then
          { s1 with addressed_count := s1.addressed_count + 1 }
        else s1
    | none => s1
  let s3 := if key ∈ visited then { s2 with visited_count := s2.visited_count + 1 }
    else s2
  stats_upsert m warning.warning_type s3

/-- `calculate_statistics` (`src/core/functional_core.cpp`): accumulate the
per-rule-id records, then sort alphabetically by rule id.  The C++ sorts with
`std::sort` on strict `<`; since the hash map holds one record per rule id the
keys are distinct and insertion sort on `≤` produces the same list. -/
def calculate_statistics (warnings : List Warning)
    (decisions : List (String × NolintStyle)) (visited : List String) :
    List WarningTypeStats :=
  List.insertionSort (fun a b => a.warning_type ≤ b.warning_type)
    ((warnings.foldl (stats_step decisions visited) []).map Prod.snd)

/-- Was the warning decided with a non-`NONE` style
(`decision_it != decisions.end() && decision_it->second != NolintStyle::NONE`)? -/
def is_addressed (decisions : List (String × NolintStyle)) (warning : Warning) : Bool :=
  match decisions.lookup (warning_key warning) with
  | some st => decide (st ≠ NolintStyle.NONE)
  | none => false

/-- The per-rule-id record as the specification words it: `total_count`
counts all warnings of the rule id, `addressed_count` those whose decision key
maps to a non-`NONE` style, `visited_count` those whose key is in the visited
set. -/
def stats_of (decisions : List (String × NolintStyle)) (visited : List String)
    (warnings : List Warning) (t : String) : WarningTypeStats :=
  { warning_type := t
    total_count := warnings.countP (fun w => w.warning_type == t)
    addressed_count := warnings.countP
      (fun w => w.warning_type == t && is_addressed decisions w)
    visited_count := warnings.countP
      (fun w => w.warning_type == t && decide (warning_key w ∈ visited)) }

/-- `style_to_string` (`src/ui/ui_model_persistence.cpp`). -/
def style_to_string (style : NolintStyle) : String :=
  match style with
  | NolintStyle.NONE => "NONE"
  | NolintStyle.NOLINT_SPECIFIC => "NOLINT_SPECIFIC"
  | NolintStyle.NOLINTNEXTLINE => "NOLINTNEXTLINE"
  | NolintStyle.NOLINT_BLOCK => "NOLINT_BLOCK"

/-- `string_to_style` (`src/ui/ui_model_persistence.cpp`): unknown tokens
decode to `NONE`. -/
def string_to_style (str : String) : NolintStyle :=
  if str = "NOLINT_SPECIFIC" then NolintStyle.NOLINT_SPECIFIC
  else if str = "NOLINTNEXTLINE" then NolintStyle.NOLINTNEXTLINE
  else if str = "NOLINT_BLOCK" then NolintStyle.NOLINT_BLOCK
  else NolintStyle.NONE

/-- `save_decisions` (`src/ui/ui_model_persistence.cpp`): the written file is
modelled as the list of emitted `"key|STYLE"` lines; only non-`NONE` entries
are written. -/
def save_decisions (decisions : List (String × NolintStyle)) : List String :=
  (decisions.filter (fun kv => decide (kv.2 ≠ NolintStyle.NONE))).map
    (fun kv => kv.1 ++ "|" ++ style_to_string kv.2)

/-- `decisions[key] = style` on the association-list model of the map. -/
def decisions_insert (m : List (String × NolintStyle)) (k : String)
    (v : NolintStyle) : List (String × NolintStyle) :=
  match m with
  | [] => [(k, v)]
  | (k', v') :: rest =>
    if k' = k then (k, v) :: rest else (k', v') :: decisions_insert rest k v

/-- One iteration of the `load_decisions` loop
(`src/ui/ui_model_persistence.cpp`): skip empty lines, lines with no `'|'`
(`find` returns `npos`) and lines with a second `'|'`; otherwise split at the
pipe and store the decoded style under the key. -/
def load_line (m : List (String × NolintStyle)) (line : String) :
    List (String × NolintStyle) :=
  if line = "" then m
  else
    let cs := line.toList
    let keyPart := cs.takeWhile (fun c => c != '|')
    if keyPart.length = cs.length then m
    else
      let rest := cs.drop (keyPart.length + 1)
      if rest.any (fun c => c == '|') then m
      else decisions_insert m (String.mk keyPart) (string_to_style (String.mk rest))

/-- `load_decisions` (`src/ui/ui_model_persistence.cpp`), with the input file
modelled as its list of lines (as produced by `std::getline`). -/
def load_decisions (lines : List String) : List (String × NolintStyle) :=
  lines.foldl load_line []

/-- The block suppression `apply_decision` appends in its `NOLINT_BLOCK`
branch: the range resolved by `find_function_boundaries` over the document's
line texts, tagged with the warning's rule id. -/
def resolved_block (file : AnnotatedFile) (warning : Warning) : BlockSuppression :=
  { start_line := (find_function_boundaries (file.lines.map AnnotatedLine.text) warning).1,
    end_line := (find_function_boundaries (file.lines.map AnnotatedLine.text) warning).2,
    warning_type := warning.warning_type }

/-- The block-begin marker line the renderer emits for block `b`. -/
def block_begin_marker (file : AnnotatedFile) (b : BlockSuppression) : String :=
  extract_indentation (file.lines.getD b.start_line default).text
    ++ "// NOLINTBEGIN(" ++ b.warning_type ++ ")"

/-- The block-end marker line the renderer emits for block `b`. -/
def block_end_marker (file : AnnotatedFile) (b : BlockSuppression) : String :=
  extract_indentation (file.lines.getD b.end_line default).text
    ++ "// NOLINTEND(" ++ b.warning_type ++ ")"

/-- Folding an append-accumulator equals prepending the flattened segments. -/
theorem foldl_append_eq_flatMap {α β : Type} (f : α → List β) (l : List α)
    (init : List β) :
    l.foldl (fun output p => output ++ f p) init = init ++ l.flatMap f := by
  induction l generalizing init with
  | nil => simp
  | cons x rest ih =>
    simp only [List.foldl_cons, List.flatMap_cons, ih, List.append_assoc]

/-- The render loop emits, for each index in ascending order, exactly the
segment described by `render_one_line`. -/
theorem render_eq_flatMap (file : AnnotatedFile) :
    render_annotated_file file =
      file.lines.enum.flatMap (fun p => render_one_line file p.1 p.2) := by
  simpa [render_annotated_file] using
    foldl_append_eq_flatMap (fun p => render_one_line file p.1 p.2) file.lines.enum []

theorem flatMap_render_fresh (file : AnnotatedFile) (hb : file.blocks = [])
    (lines : List String) (n : Nat) :
    ((lines.map (fun line =>
        ({ text := line, before_comments := [], inline_comment := none } : AnnotatedLine))).enumFrom n).flatMap
      (fun p => render_one_line file p.1 p.2) = lines := by
  induction lines generalizing n with
  | nil => simp
  | cons l rest ih =>
    have hhead : render_one_line file n
        ({ text := l, before_comments := [], inline_comment := none } : AnnotatedLine) = [l] := by
      simp [render_one_line, hb]
    simp only [List.map_cons, List.enumFrom_cons, List.flatMap_cons, hhead, ih]
    rfl

theorem flatMap_enumFrom_eq_range {α β : Type} [Inhabited α] (l : List α)
    (n : Nat) (f : Nat → α → List β) :
    (l.enumFrom n).flatMap (fun p => f p.1 p.2)
      = (List.range l.length).flatMap (fun i => f (n + i) (l.getD i default)) := by
  induction l generalizing n with
  | nil => simp
  | cons x rest ih =>
    rw [List.enumFrom_cons, List.flatMap_cons, List.length_cons,
      List.range_succ_eq_map, List.flatMap_cons, ih (n + 1), List.flatMap_map]
    simp only [List.getD_cons_zero, List.getD_cons_succ, Nat.add_zero]
    congr 1
    apply List.flatMap_congr
    intro i _
    congr 1
    omega

theorem flatMap_enum_eq_range {α β : Type} [Inhabited α] (l : List α)
    (f : Nat → α → List β) :
    l.enum.flatMap (fun p => f p.1 p.2)
      = (List.range l.length).flatMap (fun i => f i (l.getD i default)) := by
  rw [List.enum, flatMap_enumFrom_eq_range]
  simp

/-- C2: for every annotated document, the renderer emits, for every original
line index in ascending order, exactly: the block-begin markers of the blocks
starting there, then the before-comments in list order, then the original text
with `"  " + inline_comment` appended when set, then the block-end markers of
the blocks ending there — so in particular a block-begin marker precedes a
coinciding before-comment, which precedes the original line. -/
theorem render_order_matches_spec (file : AnnotatedFile) :
    render_annotated_file file = render_spec file := by
  rw [render_eq_flatMap, flatMap_enum_eq_range]
  rfl

theorem modifyAt_length (xs : List AnnotatedLine) (i : Nat)
    (f : AnnotatedLine → AnnotatedLine) :
    (modifyAt xs i f).length = xs.length := by
  induction xs generalizing i with
  | nil => rfl
  | cons x rest ih =>
    cases i with
    | zero => rfl
    | succ n => simp [modifyAt, ih]

theorem modifyAt_map_text (xs : List AnnotatedLine) (i : Nat)
    (f : AnnotatedLine → AnnotatedLine) (h : ∀ L, (f L).text = L.text) :
    (modifyAt xs i f).map AnnotatedLine.text = xs.map AnnotatedLine.text := by
  induction xs generalizing i with
  | nil => rfl
  | cons x rest ih =>
    cases i with
    | zero => simp [modifyAt, h]
    | succ n => simp [modifyAt, ih]

/-- C3: when the warning's 1-based line number is 0 or exceeds the number of
document lines, `apply_decision` leaves the document unchanged, and therefore
the document renders identically to the unmodified input. -/
theorem apply_decision_out_of_range (file : AnnotatedFile) (warning : Warning)
    (style : NolintStyle)
    (h : warning.line_number = 0 ∨ file.lines.length < warning.line_number) :
    apply_decision file warning style = file ∧
    render_annotated_file (apply_decision file warning style)
      = render_annotated_file file := by
  have heq : apply_decision file warning style = file := by
    unfold apply_decision
    rw [if_pos h]
  exact ⟨heq, by rw [heq]⟩

/-- Witness for C3 at a concrete out-of-range input: line 9 of a one-line
document. -/
theorem apply_decision_out_of_range_witness :
    apply_decision (create_annotated_file ["int x;"])
        (Warning.mk "f.cpp" 9 1 "rule-id" "msg" none) NolintStyle.NOLINT_SPECIFIC
      = create_annotated_file ["int x;"] ∧
    render_annotated_file (apply_decision (create_annotated_file ["int x;"])
        (Warning.mk "f.cpp" 9 1 "rule-id" "msg" none) NolintStyle.NOLINT_SPECIFIC)
      = render_annotated_file (create_annotated_file ["int x;"]) :=
  apply_decision_out_of_range (create_annotated_file ["int x;"])
    (Warning.mk "f.cpp" 9 1 "rule-id" "msg" none) NolintStyle.NOLINT_SPECIFIC
    (Or.inr (by decide))

/-- C4: `apply_decision` never changes the number of lines nor any line's
original text, whatever the document, warning and style. -/
theorem apply_decision_preserves_structure (file : AnnotatedFile)
    (warning : Warning) (style : NolintStyle) :
    (apply_decision file warning style).lines.length = file.lines.length ∧
    (apply_decision file warning style).lines.map AnnotatedLine.text
      = file.lines.map AnnotatedLine.text := by
  unfold apply_decision
  by_cases h : warning.line_number = 0 ∨ file.lines.length < warning.line_number
  · rw [if_pos h]
    exact ⟨rfl, rfl⟩
  · rw [if_neg h]
    cases style with
    | NONE => exact ⟨rfl, rfl⟩
    | NOLINT_SPECIFIC =>
      exact ⟨modifyAt_length _ _ _, modifyAt_map_text _ _ _ (fun L => rfl)⟩
    | NOLINTNEXTLINE =>
      exact ⟨modifyAt_length _ _ _, modifyAt_map_text _ _ _ (fun L => rfl)⟩
    | NOLINT_BLOCK =>
      by_cases hfl : warning.function_lines.isSome
      · simp [hfl]
      · simp [hfl]

/-- C5 counterexample: for a warning without `function_lines`
(`block_available = false`), cycling up from `NOLINT_BLOCK` reaches `NONE`,
and cycling back down from there gives `NOLINTNEXTLINE`, not `NOLINT_BLOCK` —
so the round trip fails for the style `NOLINT_BLOCK` when the block style is
unavailable. -/
theorem cycle_symmetry_counterexample :
    cycle_style_down
        (cycle_style_up NolintStyle.NOLINT_BLOCK
          (Warning.mk "a.cpp" 1 1 "rule" "msg" none))
        (Warning.mk "a.cpp" 1 1 "rule" "msg" none)
      = NolintStyle.NOLINTNEXTLINE ∧
    NolintStyle.NOLINTNEXTLINE ≠ NolintStyle.NOLINT_BLOCK := by
  constructor
  · rfl
  · decide

/-- C5 (amended): for every style `s` that is available for the warning (which
excludes only `NOLINT_BLOCK` when `function_lines` is absent), cycling down
after cycling up returns `s`, and cycling up after cycling down returns `s`. -/
theorem cycle_symmetry_of_available (s : NolintStyle) (w : Warning)
    (h : is_style_available s w = true) :
    cycle_style_down (cycle_style_up s w) w = s ∧
    cycle_style_up (cycle_style_down s w) w = s := by
  cases s <;>
    rcases hfl : w.function_lines with _ | n <;>
      simp_all [cycle_style_up, cycle_style_down, is_style_available]

/-- Witness for C5 (amended) at a concrete input: `NOLINTNEXTLINE` with a
warning that has no `function_lines`. -/
theorem cycle_symmetry_of_available_witness :
    cycle_style_down
        (cycle_style_up NolintStyle.NOLINTNEXTLINE
          (Warning.mk "b.cpp" 2 3 "rule" "msg" none))
        (Warning.mk "b.cpp" 2 3 "rule" "msg" none)
      = NolintStyle.NOLINTNEXTLINE ∧
    cycle_style_up
        (cycle_style_down NolintStyle.NOLINTNEXTLINE
          (Warning.mk "b.cpp" 2 3 "rule" "msg" none))
        (Warning.mk "b.cpp" 2 3 "rule" "msg" none)
      = NolintStyle.NOLINTNEXTLINE :=
  cycle_symmetry_of_available NolintStyle.NOLINTNEXTLINE
    (Warning.mk "b.cpp" 2 3 "rule" "msg" none) (by decide)

theorem wsub1_of_pos (a : Nat) (h1 : 1 ≤ a) (h2 : a < U64) : wsub1 a = a - 1 := by
  unfold wsub1
  rw [Nat.mod_eq_of_lt h2]
  have hsplit : a + (U64 - 1) = (a - 1) + U64 := by
    have : 1 ≤ U64 := by decide
    omega
  rw [hsplit, Nat.add_mod_right, Nat.mod_eq_of_lt]
  omega

/-- C6 counterexample: for the one-line input and a warning with
`line_number = 0` and no `function_lines`, `find_function_boundaries` takes
the early-return path and computes `warning.line_number - 1` in `size_t`,
which wraps to `2^64 - 1` — far outside `[0, lines.size()-1] = [0, 0]`. -/
theorem find_function_boundaries_counterexample :
    (find_function_boundaries ["int x;"]
        (Warning.mk "f.cpp" 0 1 "rule" "msg" none)).1 = U64 - 1 ∧
    ¬ (find_function_boundaries ["int x;"]
        (Warning.mk "f.cpp" 0 1 "rule" "msg" none)).1
      < (["int x;"] : List String).length := by
  constructor
  · rfl
  · decide

/-- C6 (amended): on the main path — `function_line_count = N` present,
`warning.line ≥ 1`, a nonempty line list, and no `size_t` overflow in
`(warning.line - 1) + N` (in particular `1 ≤ (warning.line - 1) + N < 2^64`) —
the resolver returns `start = min(warning.line - 1, lines.size() - 1)` and
`end = min((warning.line - 1) + N - 1, lines.size() - 1)`, both clamped inside
`[0, lines.size()-1]`; without those conditions the early-return path returns
`warning.line - 1` (computed in `size_t`) unclamped, which can index outside
the input. -/
theorem find_function_boundaries_clamped (lines : List String) (w : Warning)
    (N : Nat) (hN : w.function_lines = some N) (h1 : 1 ≤ w.line_number)
    (hnil : lines ≠ []) (hpos : 1 ≤ w.line_number - 1 + N)
    (hlt : w.line_number - 1 + N < U64) :
    find_function_boundaries lines w
      = (min (w.line_number - 1) (lines.length - 1),
         min (w.line_number - 1 + N - 1) (lines.length - 1)) ∧
    (find_function_boundaries lines w).1 ≤ lines.length - 1 ∧
    (find_function_boundaries lines w).2 ≤ lines.length - 1 := by
  have hlen : 0 < lines.length := List.length_pos.mpr hnil
  have heq : find_function_boundaries lines w
      = (min (w.line_number - 1) (lines.length - 1),
         min (w.line_number - 1 + N - 1) (lines.length - 1)) := by
    unfold find_function_boundaries
    rw [if_neg]
    · simp only [hN, Option.getD_some, if_pos hlen]
      rw [wsub1_of_pos _ hpos hlt]
    · simp only [hN, Option.isNone_some, Bool.false_or, beq_iff_eq]
      omega
  refine ⟨heq, ?_, ?_⟩
  · rw [heq]
    exact Nat.min_le_right _ _
  · rw [heq]
    exact Nat.min_le_right _ _

/-- Witness for C6 (amended) at a concrete input: a three-line file, warning
line 2, `function_line_count = 5`, giving the clamped range `(1, 2)`. -/
theorem find_function_boundaries_clamped_witness :
    find_function_boundaries ["a", "b", "c"]
        (Warning.mk "f.cpp" 2 1 "rule" "msg" (some 5))
      = (min (2 - 1) ((["a", "b", "c"] : List String).length - 1),
         min (2 - 1 + 5 - 1) ((["a", "b", "c"] : List String).length - 1)) ∧
    (find_function_boundaries ["a", "b", "c"]
        (Warning.mk "f.cpp" 2 1 "rule" "msg" (some 5))).1
      ≤ (["a", "b", "c"] : List String).length - 1 ∧
    (find_function_boundaries ["a", "b", "c"]
        (Warning.mk "f.cpp" 2 1 "rule" "msg" (some 5))).2
      ≤ (["a", "b", "c"] : List String).length - 1 :=
  find_function_boundaries_clamped ["a", "b", "c"]
    (Warning.mk "f.cpp" 2 1 "rule" "msg" (some 5)) 5 rfl (by decide)
    (by decide) (by decide) (by decide)

theorem count_flatMap_ge {α β : Type} [DecidableEq β] (l : List α)
    (f : α → List β) (p : α) (hp : p ∈ l) (x : β) :
    (f p).count x ≤ (l.flatMap f).count x := by
  obtain ⟨s, t, rfl⟩ := List.append_of_mem hp
  rw [List.flatMap_append, List.flatMap_cons, List.count_append, List.count_append]
  omega

theorem count_map_ge {α β : Type} [DecidableEq α] [DecidableEq β] (l : List α)
    (f : α → β) (a : α) :
    l.count a ≤ (l.map f).count (f a) := by
  induction l with
  | nil => simp
  | cons x rest ih =>
    simp only [List.map_cons, List.count_cons, beq_iff_eq]
    by_cases hx : x = a
    · subst hx
      rw [if_pos rfl, if_pos rfl]
      omega
    · rw [if_neg hx]
      by_cases hf : f x = f a
      · rw [if_pos hf]
        omega
      · rw [if_neg hf]
        omega

theorem count_filter_of_pos {α : Type} [DecidableEq α] (l : List α)
    (p : α → Bool) (a : α) (ha : p a = true) :
    l.count a ≤ (l.filter p).count a := by
  induction l with
  | nil => simp
  | cons x rest ih =>
    by_cases hx : x = a
    · subst hx
      rw [List.filter_cons_of_pos ha, List.count_cons_self, List.count_cons_self]
      omega
    · by_cases hp : p x = true
      · rw [List.filter_cons_of_pos hp, List.count_cons, List.count_cons]
        simp only [beq_iff_eq, if_neg hx]
        omega
      · rw [List.filter_cons_of_neg (by simpa using hp), List.count_cons]
        simp only [beq_iff_eq, if_neg hx]
        omega

theorem find_function_boundaries_in_range (lines : List String) (w : Warning)
    (hN : w.function_lines.isSome = true) (h1 : 1 ≤ w.line_number)
    (hlen : 0 < lines.length) :
    (find_function_boundaries lines w).1 ≤ lines.length - 1 ∧
    (find_function_boundaries lines w).2 ≤ lines.length - 1 := by
  have hc : (w.function_lines.isNone || w.line_number == 0) = false := by
    rw [Bool.or_eq_false_iff]
    constructor
    · rw [Option.isNone_eq_false_iff, Option.isSome_iff_exists] at *
      exact hN
    · simp only [beq_eq_false_iff_ne]
      omega
  unfold find_function_boundaries
  rw [hc]
  simp only [Bool.false_eq_true, if_false, if_pos hlen]
  exact ⟨Nat.min_le_right _ _, Nat.min_le_right _ _⟩

theorem apply_block_unfold (file : AnnotatedFile) (w : Warning)
    (hN : w.function_lines.isSome = true) (h1 : 1 ≤ w.line_number)
    (hle : w.line_number ≤ file.lines.length) :
    apply_decision file w NolintStyle.NOLINT_BLOCK
      = { file with blocks := file.blocks ++ [resolved_block file w] } := by
  unfold apply_decision
  rw [if_neg (by omega)]
  simp only [hN, if_true]
  rfl

theorem count_begin_marker_ge (file : AnnotatedFile) (b : BlockSuppression)
    (hcount : 2 ≤ file.blocks.count b) (hlt : b.start_line < file.lines.length) :
    2 ≤ (render_annotated_file file).count (block_begin_marker file b) := by
  rw [render_eq_flatMap, flatMap_enum_eq_range]
  have hmem : b.start_line ∈ List.range file.lines.length := List.mem_range.mpr hlt
  refine le_trans ?_ (count_flatMap_ge _ _ _ hmem _)
  unfold render_one_line
  simp only [List.count_append]
  have hfil : 2 ≤ (file.blocks.filter (fun bl => bl.start_line == b.start_line)).count b :=
    le_trans hcount (count_filter_of_pos _ _ _ (by simp))
  have hmap := count_map_ge
    (file.blocks.filter (fun bl => bl.start_line == b.start_line))
    (fun bl => extract_indentation (file.lines.getD b.start_line default).text
      ++ "// NOLINTBEGIN(" ++ bl.warning_type ++ ")") b
  rw [block_begin_marker]
  omega

theorem count_end_marker_ge (file : AnnotatedFile) (b : BlockSuppression)
    (hcount : 2 ≤ file.blocks.count b) (hlt : b.end_line < file.lines.length) :
    2 ≤ (render_annotated_file file).count (block_end_marker file b) := by
  rw [render_eq_flatMap, flatMap_enum_eq_range]
  have hmem : b.end_line ∈ List.range file.lines.length := List.mem_range.mpr hlt
  refine le_trans ?_ (count_flatMap_ge _ _ _ hmem _)
  unfold render_one_line
  simp only [List.count_append]
  have hfil : 2 ≤ (file.blocks.filter (fun bl => bl.end_line == b.end_line)).count b :=
    le_trans hcount (count_filter_of_pos _ _ _ (by simp))
  have hmap := count_map_ge
    (file.blocks.filter (fun bl => bl.end_line == b.end_line))
    (fun bl => extract_indentation (file.lines.getD b.end_line default).text
      ++ "// NOLINTEND(" ++ bl.warning_type ++ ")") b
  rw [block_end_marker]
  omega

/-- C10: applying the `NOLINT_BLOCK` decision twice for the same in-range
warning appends two identical block suppressions, and the rendered output
then contains the identical block-begin marker line at least twice and the
identical block-end marker line at least twice. -/
theorem repeated_block_not_deduplicated (file : AnnotatedFile) (w : Warning)
    (hN : w.function_lines.isSome = true) (h1 : 1 ≤ w.line_number)
    (hle : w.line_number ≤ file.lines.length) :
    (apply_decision (apply_decision file w NolintStyle.NOLINT_BLOCK) w
        NolintStyle.NOLINT_BLOCK).blocks
      = file.blocks ++ [resolved_block file w, resolved_block file w] ∧
    2 ≤ (render_annotated_file (apply_decision (apply_decision file w
        NolintStyle.NOLINT_BLOCK) w NolintStyle.NOLINT_BLOCK)).count
        (block_begin_marker file (resolved_block file w)) ∧
    2 ≤ (render_annotated_file (apply_decision (apply_decision file w
        NolintStyle.NOLINT_BLOCK) w NolintStyle.NOLINT_BLOCK)).count
        (block_end_marker file (resolved_block file w)) := by
  have hlen : 0 < file.lines.length := lt_of_lt_of_le (by omega) hle
  have hu1 : apply_decision file w NolintStyle.NOLINT_BLOCK
      = { file with blocks := file.blocks ++ [resolved_block file w] } :=
    apply_block_unfold file w hN h1 hle
  have hu2 : apply_decision { file with blocks := file.blocks ++ [resolved_block file w] } w
      NolintStyle.NOLINT_BLOCK
      = { file with blocks := (file.blocks ++ [resolved_block file w])
          ++ [resolved_block file w] } :=
    apply_block_unfold _ w hN h1 hle
  have hblocks : (apply_decision (apply_decision file w NolintStyle.NOLINT_BLOCK) w
      NolintStyle.NOLINT_BLOCK).blocks
      = file.blocks ++ [resolved_block file w, resolved_block file w] := by
    rw [hu1, hu2]
    simp
  have hcnt : 2 ≤ ({ file with blocks := (file.blocks ++ [resolved_block file w])
      ++ [resolved_block file w] } : AnnotatedFile).blocks.count (resolved_block file w) := by
    show 2 ≤ ((file.blocks ++ [resolved_block file w])
      ++ [resolved_block file w]).count (resolved_block file w)
    simp [List.count_append]
  refine ⟨hblocks, ?_, ?_⟩
  · rw [hu1, hu2]
    have hmarker : block_begin_marker file (resolved_block file w)
        = block_begin_marker { file with blocks := (file.blocks ++ [resolved_block file w])
            ++ [resolved_block file w] } (resolved_block file w) := rfl
    rw [hmarker]
    apply count_begin_marker_ge _ _ hcnt
    show (resolved_block file w).start_line < file.lines.length
    have hstart : (resolved_block file w).start_line ≤ file.lines.length - 1 := by
      have h := (find_function_boundaries_in_range (file.lines.map AnnotatedLine.text)
        w hN h1 (by simpa using hlen)).1
      simpa [resolved_block] using h
    omega
  · rw [hu1, hu2]
    have hmarker : block_end_marker file (resolved_block file w)
        = block_end_marker { file with blocks := (file.blocks ++ [resolved_block file w])
            ++ [resolved_block file w] } (resolved_block file w) := rfl
    rw [hmarker]
    apply count_end_marker_ge _ _ hcnt
    show (resolved_block file w).end_line < file.lines.length
    have hend : (resolved_block file w).end_line ≤ file.lines.length - 1 := by
      have h := (find_function_boundaries_in_range (file.lines.map AnnotatedLine.text)
        w hN h1 (by simpa using hlen)).2
      simpa [resolved_block] using h
    omega

/-- Witness for C10 at a concrete input: a three-line function, warning at
line 1 with `function_line_count = 3`, `NOLINT_BLOCK` applied twice. -/
theorem repeated_block_not_deduplicated_witness :
    (apply_decision (apply_decision (create_annotated_file ["void f()", "  x;", "end"])
        (Warning.mk "f.cpp" 1 1 "rule" "msg" (some 3)) NolintStyle.NOLINT_BLOCK)
        (Warning.mk "f.cpp" 1 1 "rule" "msg" (some 3)) NolintStyle.NOLINT_BLOCK).blocks
      = (create_annotated_file ["void f()", "  x;", "end"]).blocks
        ++ [resolved_block (create_annotated_file ["void f()", "  x;", "end"])
              (Warning.mk "f.cpp" 1 1 "rule" "msg" (some 3)),
            resolved_block (create_annotated_file ["void f()", "  x;", "end"])
              (Warning.mk "f.cpp" 1 1 "rule" "msg" (some 3))] ∧
    2 ≤ (render_annotated_file (apply_decision (apply_decision
        (create_annotated_file ["void f()", "  x;", "end"])
        (Warning.mk "f.cpp" 1 1 "rule" "msg" (some 3)) NolintStyle.NOLINT_BLOCK)
        (Warning.mk "f.cpp" 1 1 "rule" "msg" (some 3)) NolintStyle.NOLINT_BLOCK)).count
        (block_begin_marker (create_annotated_file ["void f()", "  x;", "end"])
          (resolved_block (create_annotated_file ["void f()", "  x;", "end"])
            (Warning.mk "f.cpp" 1 1 "rule" "msg" (some 3)))) ∧
    2 ≤ (render_annotated_file (apply_decision (apply_decision
        (create_annotated_file ["void f()", "  x;", "end"])
        (Warning.mk "f.cpp" 1 1 "rule" "msg" (some 3)) NolintStyle.NOLINT_BLOCK)
        (Warning.mk "f.cpp" 1 1 "rule" "msg" (some 3)) NolintStyle.NOLINT_BLOCK)).count
        (block_end_marker (create_annotated_file ["void f()", "  x;", "end"])
          (resolved_block (create_annotated_file ["void f()", "  x;", "end"])
            (Warning.mk "f.cpp" 1 1 "rule" "msg" (some 3)))) :=
  repeated_block_not_deduplicated (create_annotated_file ["void f()", "  x;", "end"])
    (Warning.mk "f.cpp" 1 1 "rule" "msg" (some 3)) rfl (by decide) (by decide)

theorem asciiToLower_of_space (c : Char) (h : isCSpace c = true) :
    asciiToLower c = c := by
  have hn : ¬('A' ≤ c ∧ c ≤ 'Z') := by
    simp only [isCSpace, Bool.or_eq_true, beq_iff_eq] at h
    rcases h with ((((h | h) | h) | h) | h) | h <;> subst h <;> decide
  unfold asciiToLower
  rw [if_neg hn]

theorem splitWSAux_all_space (cs : List Char) (h : ∀ c ∈ cs, isCSpace c = true) :
    splitWSAux [] cs = [] := by
  induction cs with
  | nil => rfl
  | cons c rest ih =>
    unfold splitWSAux
    rw [if_pos (h c (List.mem_cons_self _ _))]
    simp only [List.isEmpty_nil, if_true]
    exact ih (fun d hd => h d (List.mem_cons_of_mem _ hd))

theorem mem_trim_subset (q : String) (c : Char) (hc : c ∈ (trim q).toList) :
    c ∈ q.toList := by
  unfold trim at hc
  by_cases hall : q.toList.all isTrimChar = true
  · rw [if_pos hall] at hc
    simp at hc
  · rw [if_neg hall] at hc
    have h1 : c ∈ ((q.toList.dropWhile isTrimChar).reverse.dropWhile isTrimChar).reverse :=
      hc
    rw [List.mem_reverse] at h1
    have h2 := (List.dropWhile_sublist _).subset h1
    rw [List.mem_reverse] at h2
    exact (List.dropWhile_sublist _).subset h2

theorem terms_empty_of_space (q : String) (h : q.toList.all isCSpace = true) :
    split_by_whitespace (to_lowercase (trim q)) = [] := by
  have hchars : ∀ c ∈ (to_lowercase (trim q)).toList, isCSpace c = true := by
    intro c hcmem
    have : (to_lowercase (trim q)).toList = (trim q).toList.map asciiToLower := rfl
    rw [this] at hcmem
    obtain ⟨d, hd, rfl⟩ := List.mem_map.mp hcmem
    have hdq : d ∈ q.toList := mem_trim_subset q d hd
    have hdsp : isCSpace d = true := List.all_eq_true.mp h d hdq
    rw [asciiToLower_of_space d hdsp]
    exact hdsp
  unfold split_by_whitespace splitWS
  rw [splitWSAux_all_space _ hchars]
  rfl

/-- C7: `filter_warnings` returns an order-preserving subsequence of the
input's index range; an empty or all-whitespace query returns all indices;
an index is kept exactly when every term of the lowercased, whitespace-split
query occurs in the warning's lowercased file path, rule id or message, or in
the decimal line number; and when nothing matches the result is empty. -/
theorem filter_warnings_spec (warnings : List Warning) (q : String) :
    (filter_warnings warnings q).Sublist (List.range warnings.length)
    ∧ (q.toList.all isCSpace = true →
        filter_warnings warnings q = List.range warnings.length)
    ∧ (∀ i, i ∈ filter_warnings warnings q ↔
        (i < warnings.length ∧ ∀ t ∈ split_by_whitespace (to_lowercase (trim q)),
          warning_matches (warnings.getD i default) t = true))
    ∧ ((∀ i, i < warnings.length →
          ¬ ∀ t ∈ split_by_whitespace (to_lowercase (trim q)),
            warning_matches (warnings.getD i default) t = true) →
        filter_warnings warnings q = []) := by
  have hunfold : q ≠ "" → filter_warnings warnings q
      = (List.range warnings.length).filter
        (fun i => (split_by_whitespace (to_lowercase (trim q))).all
          (fun term => warning_matches (warnings.getD i default) term)) := by
    intro hq
    unfold filter_warnings
    rw [if_neg hq]
  have hiff : ∀ i, i ∈ filter_warnings warnings q ↔
      (i < warnings.length ∧ ∀ t ∈ split_by_whitespace (to_lowercase (trim q)),
        warning_matches (warnings.getD i default) t = true) := by
    intro i
    by_cases hq : q = ""
    · subst hq
      have hterms : split_by_whitespace (to_lowercase (trim "")) = [] := rfl
      rw [hterms]
      unfold filter_warnings
      simp [List.mem_range]
    · rw [hunfold hq]
      simp [List.mem_filter, List.mem_range, List.all_eq_true]
  refine ⟨?_, ?_, hiff, ?_⟩
  · by_cases hq : q = ""
    · subst hq
      unfold filter_warnings
      simp
    · rw [hunfold hq]
      exact List.filter_sublist _
  · intro hws
    by_cases hq : q = ""
    · subst hq
      unfold filter_warnings
      simp
    · have hterms := terms_empty_of_space q hws
      rw [hunfold hq, hterms]
      simp
  · intro h
    apply List.eq_nil_iff_forall_not_mem.mpr
    intro i hi
    obtain ⟨hlt, hall⟩ := (hiff i).mp hi
    exact h i hlt hall

theorem takeWhile_append_stop {p : Char → Bool} (k t : List Char) (x : Char)
    (hk : ∀ c ∈ k, p c = true) (hstop : p x = false) :
    (k ++ x :: t).takeWhile p = k := by
  induction k with
  | nil => simp [List.takeWhile, hstop]
  | cons c rest ih =>
    have hc : p c = true := hk c (List.mem_cons_self _ _)
    simp only [List.cons_append, List.takeWhile, hc]
    congr 1
    exact ih (fun d hd => hk d (List.mem_cons_of_mem _ hd))

theorem split_at_first_pipe (cs : List Char)
    (h : (cs.takeWhile (fun c => c != '|')).length < cs.length) :
    cs = cs.takeWhile (fun c => c != '|')
      ++ '|' :: cs.drop ((cs.takeWhile (fun c => c != '|')).length + 1) := by
  induction cs with
  | nil => simp at h
  | cons c rest ih =>
    by_cases hc : (c != '|') = true
    · have htw : (c :: rest).takeWhile (fun c => c != '|')
          = c :: rest.takeWhile (fun c => c != '|') := by
        simp [List.takeWhile, hc]
      rw [htw]
      rw [htw, List.length_cons] at h
      have hlt : (rest.takeWhile (fun c => c != '|')).length < rest.length := by
        simpa using h
      conv_lhs => rw [ih hlt]
      simp
    · have hcp : c = '|' := by
        simpa using hc
      subst hcp
      have htw : ('|' :: rest).takeWhile (fun c => c != '|') = [] := by
        simp [List.takeWhile]
      rw [htw]
      simp

/-- C9: session persistence round-trips only meaningful entries:
`save_decisions` emits exactly one `"key|STYLE"` line per non-`NONE` entry;
`load_decisions`'s per-line step leaves the map unchanged on any line whose
`'|'` count differs from one, stores `string_to_style(tok)` under `key` for a
well-formed `key|tok` line, and `string_to_style` decodes every unrecognized
token to `NONE`. -/
theorem persistence_round_trip_spec (decisions : List (String × NolintStyle)) :
    (∀ line, line ∈ save_decisions decisions ↔
        ∃ kv ∈ decisions, kv.2 ≠ NolintStyle.NONE
          ∧ line = kv.1 ++ "|" ++ style_to_string kv.2)
    ∧ (save_decisions decisions).length
        = decisions.countP (fun kv => decide (kv.2 ≠ NolintStyle.NONE))
    ∧ (∀ m line, line.toList.count '|' ≠ 1 → load_line m line = m)
    ∧ (∀ m k tok, (∀ c ∈ k.toList, c ≠ '|') → (∀ c ∈ tok.toList, c ≠ '|') →
        load_line m (k ++ "|" ++ tok)
          = decisions_insert m k (string_to_style tok))
    ∧ (∀ tok : String, tok ≠ "NOLINT_SPECIFIC" → tok ≠ "NOLINTNEXTLINE" →
        tok ≠ "NOLINT_BLOCK" → string_to_style tok = NolintStyle.NONE) := by
  refine ⟨?_, ?_, ?_, ?_, ?_⟩
  · intro line
    unfold save_decisions
    simp only [List.mem_map, List.mem_filter]
    constructor
    · rintro ⟨kv, ⟨hmem, hne⟩, rfl⟩
      exact ⟨kv, hmem, by simpa using hne, rfl⟩
    · rintro ⟨kv, hmem, hne, rfl⟩
      exact ⟨kv, ⟨hmem, by simpa using hne⟩, rfl⟩
  · unfold save_decisions
    rw [List.length_map, ← List.countP_eq_length_filter]
  · intro m line hcount
    unfold load_line
    by_cases hline : line = ""
    · rw [if_pos hline]
    · rw [if_neg hline]
      by_cases hk : (line.toList.takeWhile (fun c => c != '|')).length
          = line.toList.length
      · rw [if_pos hk]
      · rw [if_neg hk]
        have hlt : (line.toList.takeWhile (fun c => c != '|')).length
            < line.toList.length :=
          lt_of_le_of_ne (List.takeWhile_sublist _).length_le hk
        have hsplit := split_at_first_pipe line.toList hlt
        have hnopipe : ∀ c ∈ line.toList.takeWhile (fun c => c != '|'), c ≠ '|' := by
          intro c hcmem
          have := List.mem_takeWhile_imp hcmem
          simpa using this
        have hcnt0 : (line.toList.takeWhile (fun c => c != '|')).count '|' = 0 :=
          List.count_eq_zero.mpr (fun hmem => hnopipe '|' hmem rfl)
        have hrest : 1 ≤ (line.toList.drop
            ((line.toList.takeWhile (fun c => c != '|')).length + 1)).count '|' := by
          have hc : line.toList.count '|'
              = (line.toList.takeWhile (fun c => c != '|')).count '|'
                + ('|' :: line.toList.drop
                  ((line.toList.takeWhile (fun c => c != '|')).length + 1)).count '|' := by
            conv_lhs => rw [hsplit]
            rw [List.count_append]
          rw [hcnt0, List.count_cons_self] at hc
          omega
        rw [if_pos]
        rw [List.any_eq_true]
        have hmem := List.count_pos_iff.mp (by omega : 0 < (line.toList.drop
          ((line.toList.takeWhile (fun c => c != '|')).length + 1)).count '|')
        exact ⟨'|', hmem, by simp⟩
  · intro m k tok hk htok
    have hlist : (k ++ "|" ++ tok).toList = k.toList ++ '|' :: tok.toList := by
      show (k ++ "|" ++ tok).data = k.data ++ '|' :: tok.data
      rw [String.data_append, String.data_append, List.append_assoc]
      rfl
    have hne : (k ++ "|" ++ tok) ≠ "" := by
      intro he
      have h0 : (k ++ "|" ++ tok).toList = [] := by
        rw [he]
        rfl
      rw [hlist] at h0
      simp at h0
    have htw : (k.toList ++ '|' :: tok.toList).takeWhile (fun c => c != '|')
        = k.toList :=
      takeWhile_append_stop _ _ _ (fun c hc => by simpa using hk c hc) (by simp)
    have hdrop : (k.toList ++ '|' :: tok.toList).drop (k.toList.length + 1)
        = tok.toList := by
      rw [show k.toList ++ '|' :: tok.toList = (k.toList ++ ['|']) ++ tok.toList
        from by simp]
      rw [show k.toList.length + 1 = (k.toList ++ ['|']).length from by simp]
      exact List.drop_left _ _
    have hany : tok.toList.any (fun c => c == '|') = false := by
      rw [Bool.eq_false_iff]
      rw [Ne, List.any_eq_true]
      rintro ⟨c, hcmem, hc⟩
      exact htok c hcmem (by simpa using hc)
    unfold load_line
    rw [if_neg hne]
    simp only [hlist, htw]
    rw [if_neg (by rw [List.length_append, List.length_cons]; omega)]
    simp only [hdrop, hany]
    rfl
  · intro tok h1 h2 h3
    unfold string_to_style
    rw [if_neg h1, if_neg h2, if_neg h3]

theorem stats_upsert_lookup (m : List (String × WarningTypeStats)) (k : String)
    (v : WarningTypeStats) (t : String) :
    (stats_upsert m k v).lookup t = if t = k then some v else m.lookup t := by
  induction m with
  | nil =>
    by_cases ht : t = k
    · subst ht
      simp [stats_upsert, List.lookup]
    · have h1 : (t == k) = false := by simpa using ht
      simp [stats_upsert, List.lookup, h1, ht]
  | cons kv rest ih =>
    obtain ⟨k', v'⟩ := kv
    by_cases hk : k' = k
    · subst hk
      by_cases ht : t = k'
      · subst ht
        simp [stats_upsert, List.lookup]
      · have h1 : (t == k') = false := by simpa using ht
        simp [stats_upsert, List.lookup, h1, ht]
    · have hku : stats_upsert ((k', v') :: rest) k v
          = (k', v') :: stats_upsert rest k v := by
        simp [stats_upsert, hk]
      rw [hku]
      by_cases ht : t = k'
      · subst ht
        simp [List.lookup, hk]
      · have h1 : (t == k') = false := by simpa using ht
        by_cases ht2 : t = k
        · subst ht2
          simp [List.lookup, h1, ih]
        · simp [List.lookup, h1, ih, ht2]

theorem stats_upsert_keys (m : List (String × WarningTypeStats)) (k : String)
    (v : WarningTypeStats) :
    (stats_upsert m k v).map Prod.fst
      = if k ∈ m.map Prod.fst then m.map Prod.fst
        else m.map Prod.fst ++ [k] := by
  induction m with
  | nil => simp [stats_upsert]
  | cons kv rest ih =>
    obtain ⟨k', v'⟩ := kv
    by_cases hk : k' = k
    · subst hk
      simp [stats_upsert]
    · have hku : stats_upsert ((k', v') :: rest) k v
          = (k', v') :: stats_upsert rest k v := by
        simp [stats_upsert, hk]
      rw [hku]
      simp only [List.map_cons, ih]
      by_cases hmem : k ∈ rest.map Prod.fst
      · rw [if_pos hmem, if_pos (List.mem_cons_of_mem _ hmem)]
      · rw [if_neg hmem, if_neg (by
          intro hor
          rcases List.mem_cons.mp hor with he | he
          · exact hk he.symm
          · exact hmem he)]
        simp

theorem lookup_some_mem_fst {β : Type} (m : List (String × β)) (a : String) (b : β)
    (h : m.lookup a = some b) : a ∈ m.map Prod.fst := by
  induction m with
  | nil => simp [List.lookup] at h
  | cons kv rest ih =>
    obtain ⟨k', v'⟩ := kv
    by_cases ha : a = k'
    · subst ha
      simp
    · have h1 : (a == k') = false := by simpa using ha
      simp only [List.lookup, h1] at h
      exact List.mem_cons_of_mem _ (ih h)

theorem mem_snd_iff_lookup (m : List (String × WarningTypeStats))
    (hcoh : ∀ kv ∈ m, kv.2.warning_type = kv.1)
    (hnd : (m.map Prod.fst).Nodup) (r : WarningTypeStats) :
    r ∈ m.map Prod.snd ↔ m.lookup r.warning_type = some r := by
  induction m with
  | nil => simp [List.lookup]
  | cons kv rest ih =>
    obtain ⟨k', v'⟩ := kv
    have hv' : v'.warning_type = k' := hcoh (k', v') (List.mem_cons_self _ _)
    have hnd' : (rest.map Prod.fst).Nodup := (List.nodup_cons.mp (by simpa using hnd)).2
    have hk'nmem : k' ∉ rest.map Prod.fst := (List.nodup_cons.mp (by simpa using hnd)).1
    have ihr := ih (fun kv h => hcoh kv (List.mem_cons_of_mem _ h)) hnd'
    constructor
    · intro hr
      rw [List.map_cons] at hr
      rcases List.mem_cons.mp hr with rfl | hr'
      · have ht : r.warning_type = k' := hv'
        simp [List.lookup, ht]
      · have hlk := ihr.mp hr'
        have hne : r.warning_type ≠ k' := by
          intro he
          exact hk'nmem (he ▸ lookup_some_mem_fst rest r.warning_type r hlk)
        have h1 : (r.warning_type == k') = false := by simpa using hne
        simp [List.lookup, h1, hlk]
    · intro hlk
      by_cases ht : r.warning_type = k'
      · have hv : some v' = some r := by
          rw [← hlk]
          simp [List.lookup, ht]
        have : v' = r := by injection hv
        subst this
        simp
      · have h1 : (r.warning_type == k') = false := by simpa using ht
        simp only [List.lookup, h1] at hlk
        have := ihr.mpr hlk
        simp only [List.map_cons]
        exact List.mem_cons_of_mem _ this

theorem stats_upsert_coh (m : List (String × WarningTypeStats)) (k : String)
    (v : WarningTypeStats) (hm : ∀ kv ∈ m, kv.2.warning_type = kv.1)
    (hv : v.warning_type = k) :
    ∀ kv ∈ stats_upsert m k v, kv.2.warning_type = kv.1 := by
  induction m with
  | nil =>
    intro kv hkv
    simp [stats_upsert] at hkv
    rw [hkv]
    exact hv
  | cons kv0 rest ih =>
    obtain ⟨k', v'⟩ := kv0
    by_cases hk : k' = k
    · subst hk
      intro kv hkv
      simp only [stats_upsert, if_pos rfl] at hkv
      rcases List.mem_cons.mp hkv with rfl | hkv'
      · exact hv
      · exact hm kv (List.mem_cons_of_mem _ hkv')
    · intro kv hkv
      have hku : stats_upsert ((k', v') :: rest) k v
          = (k', v') :: stats_upsert rest k v := by
        simp [stats_upsert, hk]
      rw [hku] at hkv
      rcases List.mem_cons.mp hkv with rfl | hkv'
      · exact hm (k', v') (List.mem_cons_self _ _)
      · exact ih (fun kv h => hm kv (List.mem_cons_of_mem _ h)) kv hkv'

theorem stats_of_append_self (d : List (String × NolintStyle)) (vst : List String)
    (l : List Warning) (w : Warning) :
    stats_of d vst (l ++ [w]) w.warning_type
      = { warning_type := w.warning_type,
          total_count := (stats_of d vst l w.warning_type).total_count + 1,
          addressed_count := (stats_of d vst l w.warning_type).addressed_count
            + (if is_addressed d w = true then 1 else 0),
          visited_count := (stats_of d vst l w.warning_type).visited_count
            + (if warning_key w ∈ vst then 1 else 0) } := by
  simp [stats_of, List.countP_append, List.countP_cons, List.countP_nil]

theorem stats_of_append_ne (d : List (String × NolintStyle)) (vst : List String)
    (l : List Warning) (w : Warning) (t : String) (h : w.warning_type ≠ t) :
    stats_of d vst (l ++ [w]) t = stats_of d vst l t := by
  have h1 : (w.warning_type == t) = false := by simpa using h
  simp [stats_of, List.countP_append, List.countP_cons, List.countP_nil, h1]

theorem stats_of_of_not_any (d : List (String × NolintStyle)) (vst : List String)
    (l : List Warning) (t : String)
    (h : l.any (fun x => x.warning_type == t) = false) :
    stats_of d vst l t
      = { warning_type := t, total_count := 0, addressed_count := 0,
          visited_count := 0 } := by
  have hall : ∀ x ∈ l, (x.warning_type == t) = false := by
    intro x hx
    cases hx' : (x.warning_type == t) with
    | false => rfl
    | true =>
      exfalso
      have : l.any (fun x => x.warning_type == t) = true :=
        List.any_eq_true.mpr ⟨x, hx, hx'⟩
      rw [this] at h
      cases h
  simp only [stats_of]
  congr 1
  · exact List.countP_eq_zero.mpr (fun x hx => by simp [hall x hx])
  · exact List.countP_eq_zero.mpr (fun x hx => by simp [hall x hx])
  · exact List.countP_eq_zero.mpr (fun x hx => by simp [hall x hx])

theorem stats_step_spec (d : List (String × NolintStyle)) (vst : List String)
    (l : List Warning) (w : Warning) (M : List (String × WarningTypeStats))
    (hlookT : M.lookup w.warning_type
      = if l.any (fun x => x.warning_type == w.warning_type) = true
        then some (stats_of d vst l w.warning_type) else none) :
    stats_step d vst M w
      = stats_upsert M w.warning_type
          (stats_of d vst (l ++ [w]) w.warning_type) := by
  rw [stats_of_append_self]
  cases hany : l.any (fun x => x.warning_type == w.warning_type) with
  | false =>
    have hlook : M.lookup w.warning_type = none := by
      rw [hlookT, hany]
      simp
    rw [stats_of_of_not_any d vst l w.warning_type hany]
    rcases hdec : List.lookup (warning_key w) d with _ | st
    · have ha : is_addressed d w = false := by
        simp [is_addressed, hdec]
      by_cases hvst : warning_key w ∈ vst
      · simp [stats_step, hlook, hdec, ha, hvst, WarningTypeStats.init]
      · simp [stats_step, hlook, hdec, ha, hvst, WarningTypeStats.init]
    · by_cases hst : st = NolintStyle.NONE
      · have ha : is_addressed d w = false := by
          simp [is_addressed, hdec, hst]
        by_cases hvst : warning_key w ∈ vst
        · simp [stats_step, hlook, hdec, hst, ha, hvst, WarningTypeStats.init]
        · simp [stats_step, hlook, hdec, hst, ha, hvst, WarningTypeStats.init]
      · have ha : is_addressed d w = true := by
          simp [is_addressed, hdec, hst]
        by_cases hvst : warning_key w ∈ vst
        · simp [stats_step, hlook, hdec, hst, ha, hvst, WarningTypeStats.init]
        · simp [stats_step, hlook, hdec, hst, ha, hvst, WarningTypeStats.init]
  | true =>
    have hlook : M.lookup w.warning_type
        = some (stats_of d vst l w.warning_type) := by
      rw [hlookT, hany]
      simp
    rcases hdec : List.lookup (warning_key w) d with _ | st
    · have ha : is_addressed d w = false := by
        simp [is_addressed, hdec]
      by_cases hvst : warning_key w ∈ vst
      · simp [stats_step, hlook, hdec, ha, hvst, stats_of]
      · simp [stats_step, hlook, hdec, ha, hvst, stats_of]
    · by_cases hst : st = NolintStyle.NONE
      · have ha : is_addressed d w = false := by
          simp [is_addressed, hdec, hst]
        by_cases hvst : warning_key w ∈ vst
        · simp [stats_step, hlook, hdec, hst, ha, hvst, stats_of]
        · simp [stats_step, hlook, hdec, hst, ha, hvst, stats_of]
      · have ha : is_addressed d w = true := by
          simp [is_addressed, hdec, hst]
        by_cases hvst : warning_key w ∈ vst
        · simp [stats_step, hlook, hdec, hst, ha, hvst, stats_of]
        · simp [stats_step, hlook, hdec, hst, ha, hvst, stats_of]

theorem stats_fold_inv (d : List (String × NolintStyle)) (vst : List String)
    (ws : List Warning) :
    (∀ t, (ws.foldl (stats_step d vst) []).lookup t
        = if ws.any (fun x => x.warning_type == t) = true
          then some (stats_of d vst ws t) else none)
    ∧ (∀ kv ∈ ws.foldl (stats_step d vst) [], kv.2.warning_type = kv.1)
    ∧ ((ws.foldl (stats_step d vst) []).map Prod.fst).Nodup := by
  induction ws using List.reverseRecOn with
  | nil =>
    refine ⟨?_, ?_, ?_⟩
    · intro t
      simp [List.lookup]
    · intro kv hkv
      simp at hkv
    · simp
  | append_singleton l w ih =>
    obtain ⟨ihL, ihC, ihN⟩ := ih
    have hfold : (l ++ [w]).foldl (stats_step d vst) []
        = stats_step d vst (l.foldl (stats_step d vst) []) w := by
      rw [List.foldl_append]
      rfl
    have hstep := stats_step_spec d vst l w (l.foldl (stats_step d vst) [])
      (ihL w.warning_type)
    refine ⟨?_, ?_, ?_⟩
    · intro t
      rw [hfold, hstep, stats_upsert_lookup]
      by_cases ht : t = w.warning_type
      · subst ht
        rw [if_pos rfl]
        have hany : (l ++ [w]).any (fun x => x.warning_type == w.warning_type)
            = true := by
          simp
        rw [if_pos hany]
      · rw [if_neg ht, ihL t]
        have hw1 : (w.warning_type == t) = false := by
          simpa using fun he => ht he.symm
        have hany2 : (l ++ [w]).any (fun x => x.warning_type == t)
            = l.any (fun x => x.warning_type == t) := by
          simp [hw1]
        rw [hany2, stats_of_append_ne d vst l w t (fun he => ht he.symm)]
    · intro kv hkv
      rw [hfold, hstep] at hkv
      exact stats_upsert_coh (l.foldl (stats_step d vst) []) w.warning_type
        (stats_of d vst (l ++ [w]) w.warning_type) ihC rfl kv hkv
    · rw [hfold, hstep]
      rw [stats_upsert_keys]
      by_cases hmem : w.warning_type
          ∈ (l.foldl (stats_step d vst) []).map Prod.fst
      · rw [if_pos hmem]
        exact ihN
      · rw [if_neg hmem]
        simp [List.nodup_append, ihN, hmem]

/-- C8: the statistics aggregation yields records sorted strictly
alphabetically by rule id (hence one record per rule id); a record is in the
result exactly when its rule id occurs among the warnings and its counts are
the number of warnings of that rule id, of those whose decision key maps to a
non-`NONE` style, and of those whose key is in the visited set; and
`addressed_percentage` is `addressed*100/total` with integer truncation, `0`
when the total is `0`. -/
theorem calculate_statistics_spec (warnings : List Warning)
    (decisions : List (String × NolintStyle)) (visited : List String) :
    List.Pairwise (fun a b => a < b)
      ((calculate_statistics warnings decisions visited).map
        WarningTypeStats.warning_type)
    ∧ (∀ r, r ∈ calculate_statistics warnings decisions visited ↔
        ((∃ x ∈ warnings, x.warning_type = r.warning_type)
          ∧ r = stats_of decisions visited warnings r.warning_type))
    ∧ (∀ r ∈ calculate_statistics warnings decisions visited,
        r.addressed_percentage
          = if 0 < r.total_count then r.addressed_count * 100 / r.total_count
            else 0) := by
  obtain ⟨hL, hC, hN⟩ := stats_fold_inv decisions visited warnings
  have hperm : List.Perm (calculate_statistics warnings decisions visited)
      ((warnings.foldl (stats_step decisions visited) []).map Prod.snd) := by
    unfold calculate_statistics
    exact List.perm_insertionSort _ _
  haveI hto : IsTotal WarningTypeStats
      (fun a b => a.warning_type ≤ b.warning_type) :=
    ⟨fun a b => le_total a.warning_type b.warning_type⟩
  haveI htr : IsTrans WarningTypeStats
      (fun a b => a.warning_type ≤ b.warning_type) :=
    ⟨fun _ _ _ hab hbc => le_trans hab hbc⟩
  have hsorted : List.Sorted (fun a b => a.warning_type ≤ b.warning_type)
      (calculate_statistics warnings decisions visited) := by
    unfold calculate_statistics
    exact List.sorted_insertionSort _ _
  have hpwle : List.Pairwise (fun a b : String => a ≤ b)
      ((calculate_statistics warnings decisions visited).map
        WarningTypeStats.warning_type) :=
    (List.pairwise_map).mpr hsorted
  have htypes_eq : ((warnings.foldl (stats_step decisions visited) []).map
      Prod.snd).map WarningTypeStats.warning_type
      = (warnings.foldl (stats_step decisions visited) []).map Prod.fst := by
    rw [List.map_map]
    exact List.map_congr_left (fun kv hkv => hC kv hkv)
  have hnodup_types : ((calculate_statistics warnings decisions visited).map
      WarningTypeStats.warning_type).Nodup := by
    have hpm := hperm.map WarningTypeStats.warning_type
    rw [htypes_eq] at hpm
    exact (hpm.nodup_iff).mpr hN
  have hmem_iff : ∀ r, r ∈ calculate_statistics warnings decisions visited ↔
      (warnings.foldl (stats_step decisions visited) []).lookup r.warning_type
        = some r := by
    intro r
    rw [hperm.mem_iff]
    exact mem_snd_iff_lookup _ hC hN r
  refine ⟨?_, ?_, fun r _ => rfl⟩
  · have hpairs := hpwle.and hnodup_types
    exact hpairs.imp (fun hab => lt_of_le_of_ne hab.1 hab.2)
  · intro r
    rw [hmem_iff r, hL r.warning_type]
    constructor
    · intro hsome
      cases hany : warnings.any (fun x => x.warning_type == r.warning_type) with
      | false =>
        rw [hany] at hsome
        simp at hsome
      | true =>
        rw [hany] at hsome
        simp only [if_pos rfl] at hsome
        obtain ⟨x, hx, hxt⟩ := List.any_eq_true.mp hany
        exact ⟨⟨x, hx, by simpa using hxt⟩, by
          injection hsome with h
          exact h.symm⟩
    · rintro ⟨⟨x, hx, hxt⟩, hr⟩
      have hany : warnings.any (fun x => x.warning_type == r.warning_type)
          = true :=
        List.any_eq_true.mpr ⟨x, hx, by simpa using hxt⟩
      rw [hany]
      rw [if_pos rfl, ← hr]

/-- C1: rendering a freshly created annotated document returns exactly the
input lines: `render_annotated_file (create_annotated_file lines) = lines`
(a document with no decorations renders as the identity). -/
theorem round_trip_create_render (lines : List String) :
    render_annotated_file (create_annotated_file lines) = lines := by
  rw [render_eq_flatMap]
  simpa [create_annotated_file, List.enum] using
    flatMap_render_fresh (create_annotated_file lines) rfl lines 0

end Nolint
